import Mathlib

/-!
Verification of the snowglobe spend-governed turn orchestrator.

The first half embeds `llm_snowglobe/core/cost_tracker.py`: the pricing
table, cost estimation, the file-backed cost ledger with its daily and
lifetime caps, and its load/save behaviour.  Monetary amounts, timestamps
and durations are modelled as rationals (`ℚ`); character counts as
naturals.  Fallible operations return `Except`, mirroring Python
exceptions.  The second half embeds the round scheduler of
`llm_snowglobe/user_defined_game.py`.
-/

namespace Snowglobe

/-- A pricing entry value: `{"input": ..., "output": ...}` in USD per 1M
tokens, from the `PRICING` table of `cost_tracker.py`. -/
structure Pricing where
  input : ℚ
  output : ℚ
deriving DecidableEq

/-- The module-level `PRICING` dict of `cost_tracker.py`, keyed by
`(source, model_prefix)`, in declaration order (Python dicts preserve
insertion order, so the prefix-matching loop scans in this order). -/
def PRICING : List ((String × String) × Pricing) :=
  [ (("google", "gemini-2.5-flash"), ⟨15/100, 60/100⟩),
    (("google", "gemini-2.5-pro"),   ⟨125/100, 10⟩),
    (("google", "gemini-2.0-flash"), ⟨10/100, 40/100⟩),
    (("ollama", ""),                 ⟨0, 0⟩),
    (("openai", "gpt-4o"),           ⟨250/100, 10⟩),
    (("openai", "gpt-4o-mini"),      ⟨15/100, 60/100⟩) ]

/-- `CHARS_PER_TOKEN = 4` from `cost_tracker.py`. -/
def CHARS_PER_TOKEN : ℚ := 4

/-- The conservative fallback returned by `_lookup_pricing` when no table
entry matches: `{"input": 5.00, "output": 15.00}`. -/
def FALLBACK_PRICING : Pricing := ⟨5, 15⟩

/-- One element of `CostTracker.records`: the dict appended by
`CostTracker.record` (`ts`, `source`, `model`, `prompt_chars`,
`response_chars`, `duration`, `cost`). -/
structure CostRecord where
  ts : ℚ
  source : String
  model : String
  prompt_chars : ℕ
  response_chars : ℕ
  duration : ℚ
  cost : ℚ
deriving DecidableEq

/-- Which of the two cap checks of `check_budget` failed. -/
inductive WhichCap where
  | daily
  | total
deriving DecidableEq

/-- The `CostLimitExceeded` exception.  The Python exception carries a
formatted message; the message interpolates exactly the current spend,
the increment and the cap of the failed check, which we model as
structured fields. -/
structure CostLimitExceeded where
  which : WhichCap
  spend : ℚ
  increment : ℚ
  cap : ℚ
deriving DecidableEq

/-- The in-memory state of a `CostTracker`: the two caps and the ordered
record list.  The backing path is modelled separately (`FileState`). -/
structure CostTracker where
  daily_cap : ℚ
  total_cap : ℚ
  records : List CostRecord
deriving DecidableEq

/-- Python's `s.startswith(pre)`, as a prefix test on the character
sequences of the two strings. -/
def starts_with (s pre : String) : Bool :=
  pre.data.isPrefixOf s.data

/-- Embeds the static method `CostTracker._lookup_pricing(source, model)`:
`ollama` is always free; then the exact `(source, model)` key is tried
(`key in PRICING`); then the first entry, in declaration order, whose
source matches and whose model prefix is a prefix of `model`
(`model.startswith(prefix)`); else the conservative fallback. -/
def lookup_pricing (source model : String) : Pricing :=
  if source = "ollama" then ⟨0, 0⟩
  else
    match PRICING.find? (fun e => e.1 = (source, model)) with
    | some e => e.2
    | none =>
      match PRICING.find? (fun e => e.1.1 = source ∧ starts_with model e.1.2) with
      | some e => e.2
      | none => FALLBACK_PRICING

/-- Embeds the static method `CostTracker.estimate_cost`: token counts are
`chars / CHARS_PER_TOKEN` (true division), and the cost is
`input_tokens * input_rate / 1_000_000 + output_tokens * output_rate / 1_000_000`. -/
def estimate_cost (source model : String) (prompt_chars response_chars : ℕ) : ℚ :=
  let pricing := lookup_pricing source model
  let input_tokens : ℚ := (prompt_chars : ℚ) / CHARS_PER_TOKEN
  let output_tokens : ℚ := (response_chars : ℚ) / CHARS_PER_TOKEN
  input_tokens * pricing.input / 1000000 + output_tokens * pricing.output / 1000000

/-- Embeds `CostTracker.spend_last_24h`: the sum of `r["cost"]` over
records with `r["ts"] >= now - 86400`.  `time.time()` is passed in as
`now`. -/
def spend_last_24h (t : CostTracker) (now : ℚ) : ℚ :=
  ((t.records.filter (fun r => now - 86400 ≤ r.ts)).map (fun r => r.cost)).sum

/-- Embeds `CostTracker.spend_total`: the sum of all record costs. -/
def spend_total (t : CostTracker) : ℚ :=
  (t.records.map (fun r => r.cost)).sum

/-- Embeds `CostTracker.check_budget(estimated_cost)`: raises
`CostLimitExceeded` when `daily + estimated_cost > daily_cap` (checked
first) or `total + estimated_cost > total_cap`, with the failed check's
spend, increment and cap in the exception; otherwise returns normally. -/
def check_budget (t : CostTracker) (now estimated_cost : ℚ) :
    Except CostLimitExceeded Unit :=
  if spend_last_24h t now + estimated_cost > t.daily_cap then
    .error ⟨.daily, spend_last_24h t now, estimated_cost, t.daily_cap⟩
  else if spend_total t + estimated_cost > t.total_cap then
    .error ⟨.total, spend_total t, estimated_cost, t.total_cap⟩
  else
    .ok ()

/-- Python's built-in `round` on the scaled value: round half to even. -/
def pyRound (x : ℚ) : ℤ :=
  if x - ⌊x⌋ < 1/2 then ⌊x⌋
  else if 1/2 < x - ⌊x⌋ then ⌊x⌋ + 1
  else if ⌊x⌋ % 2 = 0 then ⌊x⌋ else ⌊x⌋ + 1

/-- `round(x, nd)`: round to `nd` decimal places. -/
def round_to (nd : ℕ) (x : ℚ) : ℚ :=
  (pyRound (x * 10 ^ nd) : ℚ) / 10 ^ nd

/-- The record dict built inside `CostTracker.record`: `ts = time.time()`
(passed as `now`), `duration` rounded to 2 decimals, `cost` (the
`estimate_cost` result) rounded to 6 decimals. -/
def mkEntry (now : ℚ) (source model : String) (prompt_chars response_chars : ℕ)
    (duration : ℚ) : CostRecord :=
  ⟨now, source, model, prompt_chars, response_chars, round_to 2 duration,
    round_to 6 (estimate_cost source model prompt_chars response_chars)⟩

/-- Embeds `CostTracker.record`: appends the new entry to `records`,
persists (see `save_file`), and returns the unrounded estimated cost.
It performs no cap check. -/
def record (t : CostTracker) (now : ℚ) (source model : String)
    (prompt_chars response_chars : ℕ) (duration : ℚ) : CostTracker × ℚ :=
  ({ t with records :=
      t.records ++ [mkEntry now source model prompt_chars response_chars duration] },
    estimate_cost source model prompt_chars response_chars)

/-- The observable states of the ledger's backing file, by the class of
content found there.  `jsonList rs` is a file whose bytes decode as UTF-8
and parse as a JSON array of records (the only thing `_save` ever writes,
with JSON serialization taken as faithful). -/
inductive FileState where
  | missing
  | ioErr
  | invalidUtf8
  | badJson
  | jsonList (records : List CostRecord)
deriving DecidableEq

/-- A Python exception escaping `CostTracker._load`. -/
inductive PyExn where
  | unicodeDecodeError
deriving DecidableEq

/-- Embeds `CostTracker._load`, branch by branch.  Missing file: records
stay `[]`, nothing logged.  `IOError` on open/read and `JSONDecodeError`
on parse are caught by `except (json.JSONDecodeError, IOError)`: records
reset to `[]` with a warning (the `Bool` flag; emitted only when a logger
is configured).  A present file whose bytes are not valid UTF-8 makes
`json.load` raise `UnicodeDecodeError` from the text-mode read — a
`ValueError`, not a member of the caught tuple — so it escapes `_load`.
A file parsing as a JSON array yields those records. -/
def load (fs : FileState) : Except PyExn (List CostRecord × Bool) :=
  match fs with
  | .missing => .ok ([], false)
  | .ioErr => .ok ([], true)
  | .invalidUtf8 => .error .unicodeDecodeError
  | .badJson => .ok ([], true)
  | .jsonList rs => .ok (rs, false)

/-- Embeds `CostTracker.__init__` as far as the ledger is concerned: set
the caps and run `_load` on the backing file. -/
def mkTracker (fs : FileState) (daily_cap total_cap : ℚ) :
    Except PyExn CostTracker :=
  (load fs).map (fun p => ⟨daily_cap, total_cap, p.1⟩)

/-- Embeds `CostTracker._save`: the backing file is atomically replaced
with the JSON dump of the tracker's whole in-memory record list. -/
def save_file (t : CostTracker) : FileState :=
  .jsonList t.records

/-- The dict returned by `CostTracker.summary()`. -/
structure Summary where
  daily_spend : ℚ
  daily_cap : ℚ
  total_spend : ℚ
  total_cap : ℚ
  call_count : ℕ
deriving DecidableEq

/-- Embeds `CostTracker.summary`. -/
def summary (t : CostTracker) (now : ℚ) : Summary :=
  ⟨round_to 4 (spend_last_24h t now), t.daily_cap,
    round_to 4 (spend_total t), t.total_cap, t.records.length⟩

/-- The arguments of one `record` call (with `time.time()` made explicit),
used to state properties over arbitrary call sequences. -/
structure RecCall where
  ts : ℚ
  source : String
  model : String
  prompt_chars : ℕ
  response_chars : ℕ
  duration : ℚ
deriving DecidableEq

/-- Run a sequence of `record` calls against a tracker, keeping the
resulting tracker state. -/
def applyCalls (t : CostTracker) (calls : List RecCall) : CostTracker :=
  calls.foldl
    (fun s c =>
      (record s c.ts c.source c.model c.prompt_chars c.response_chars c.duration).1)
    t

/-! ## The round scheduler of `user_defined_game.py` -/

/-- A player's `kind`, `'human'` or `'ai'`. -/
inductive PKind where
  | human
  | ai
deriving DecidableEq

/-- A game participant as `UserDefinedGame.game` sees it: its name and
kind.  (Persona text only feeds the opaque LLM collaborator.) -/
structure GPlayer where
  name : String
  kind : PKind
deriving DecidableEq

/-- Modelled from the spec: the collaborators `Control`, `Player`,
`History` and `Database` of `llm_snowglobe.core` are not among the
sources; per the spec's interface section a Player exposes
`respond(history)` (a priced call that may raise the budget condition),
`interface_get_message(room)` (awaits a human reply), and the control
exposes `adjudicate(...) -> narration` (also priced) and
`interface_send_message(room, content, format)` (publishes to the shared
game room).  `GameEnv` packages the scheduler's configuration together
with scripted behaviours for those collaborators: `reply m i` is the
human reply of player `i` at move `m`, `respond m i` the outcome of an
AI player's priced respond call (`.error msg` models a raised
`CostLimitExceeded` whose `str()` is `msg`), and `adjudicate m rs` the
adjudication outcome for the collected responses `rs`. -/
structure GameEnv where
  moves : ℕ
  scenario : String
  players : List GPlayer
  advisors : List String
  reply : ℕ → ℕ → String
  respond : ℕ → ℕ → Except String String
  adjudicate : ℕ → List (String × String) → Except String String

/-- Modelled from the spec: `self.history[-1].textonly()` — the latest
entry of the append-only narrated timeline (the timeline is non-empty
whenever the scheduler reads it, since the scenario is recorded during
setup). -/
def lastNarr (hist : List String) : String :=
  (hist.getLast?).getD ""

/-- The prompt published to a human player's game room each move:
the latest narration followed by the fixed question. -/
def promptMsg (narr : String) : String :=
  narr ++ "\n\n**How do you respond?**"

/-- The message sent to each human when `CostLimitExceeded` is caught by
`UserDefinedGame.game` (`str(e)` is appended to the fixed banner). -/
def budgetMsg (e : String) : String :=
  "**Game stopped: spending limit reached.**\n\n" ++ e

/-- The final message of the conclusion section: latest narration plus
the terminal marker. -/
def gameOverMsg (hist : List String) : String :=
  lastNarr hist ++ "\n\n**Game Over**"

/-- The observable log threaded through the move loop: the contents
published to the shared game room (in send order) and the poll events
`(move, player index)` in the order players were engaged. -/
structure LoopSt where
  sends : List String
  polled : List (ℕ × ℕ)
deriving DecidableEq

/-- The inner per-move player loop of `UserDefinedGame.game`: in player
order, a human is shown the latest narration and its reply is awaited; an
AI player's priced `respond` is awaited and a raised budget condition
aborts the loop at once (remaining players are not engaged).  Responses
accumulate as `(name, response)` pairs. -/
def pollPlayers (env : GameEnv) (m : ℕ) (hist : List String) :
    List GPlayer → ℕ → List (String × String) → LoopSt →
    LoopSt × Except String (List (String × String))
  | [], _, acc, st => (st, .ok acc)
  | p :: rest, i, acc, st =>
    let st1 : LoopSt := { st with polled := st.polled ++ [(m, i)] }
    match p.kind with
    | .human =>
      let st2 : LoopSt :=
        { st1 with sends := st1.sends ++ [promptMsg (lastNarr hist)] }
      pollPlayers env m hist rest (i + 1) (acc ++ [(p.name, env.reply m i)]) st2
    | .ai =>
      match env.respond m i with
      | .error e => (st1, .error e)
      | .ok resp => pollPlayers env m hist rest (i + 1) (acc ++ [(p.name, resp)]) st1

/-- The move loop of `UserDefinedGame.game`: for each remaining move,
poll every player, adjudicate the collected responses, append the outcome
to the narrated timeline and count the move as completed; a budget
condition raised by a respond or adjudication call aborts the loop,
carrying the failure out to the `except` handler. -/
def runMoves (env : GameEnv) : ℕ → ℕ → List String → LoopSt → ℕ →
    List String × LoopSt × ℕ × Option String
  | _, 0, hist, st, done => (hist, st, done, none)
  | m, rem + 1, hist, st, done =>
    match pollPlayers env m hist env.players 0 [] st with
    | (st1, .error e) => (hist, st1, done, some e)
    | (st1, .ok responses) =>
      match env.adjudicate m responses with
      | .error e => (hist, st1, done, some e)
      | .ok outcome => runMoves env (m + 1) rem (hist ++ [outcome]) st1 (done + 1)

/-- What `UserDefinedGame.game` leaves behind: the ordered room sends,
the poll events, the narrated timeline, `moves_completed`, the caught
budget failure (if any), and each advisor's `active` flag. -/
structure GameResult where
  sends : List String
  polled : List (ℕ × ℕ)
  history : List String
  movesCompleted : ℕ
  stopped : Option String
  advisorsActive : List (String × Bool)
deriving DecidableEq

/-- The human participants, in declaration order. -/
def humansOf (players : List GPlayer) : List GPlayer :=
  players.filter (fun p => p.kind = PKind.human)

/-- Embeds the coroutine `UserDefinedGame.game` end to end: setup
(clear the timeline, record the scenario, greet each human), the move
loop, the `except CostLimitExceeded` handler (one budget message per
human), the conclusion (one game-over message per human), and advisor
deactivation.  The `except` handler catches the budget condition, so the
function always returns a result — the process does not crash. -/
def game (env : GameEnv) : GameResult :=
  let hist0 := [env.scenario]
  let st0 : LoopSt :=
    ⟨(humansOf env.players).map (fun p => "You are " ++ p.name ++ "."), []⟩
  let res := runMoves env 0 env.moves hist0 st0 0
  let hist := res.1
  let st := res.2.1
  let done := res.2.2.1
  let stopped := res.2.2.2
  let sends1 := st.sends ++
    (match stopped with
     | some e => (humansOf env.players).map (fun _ => budgetMsg e)
     | none => [])
  let sends2 := sends1 ++ (humansOf env.players).map (fun _ => gameOverMsg hist)
  ⟨sends2, st.polled, hist, done, stopped, env.advisors.map (fun a => (a, false))⟩

/-- The messages of the `except CostLimitExceeded` handler: one budget
message per human when a failure was caught, none otherwise. -/
def budgetSends (env : GameEnv) (err : Option String) : List String :=
  match err with
  | some e0 => (humansOf env.players).map (fun _ => budgetMsg e0)
  | none => []

/-- Where the single scripted budget failure of a game run occurs:
during the priced respond call of the player at a given index, or during
the adjudication call. -/
inductive FailSpot where
  | player (i : ℕ)
  | adjudication
deriving DecidableEq

/-- A game environment whose collaborators behave normally except for one
designated budget failure at move `k`: the respond call of player `i`
(when `spot = player i`) or the adjudication call (when
`spot = adjudication`) raises with message `e`; every other reply,
respond and adjudication is scripted by the arbitrary functions given. -/
def mkFailEnv (moves : ℕ) (scenario : String) (players : List GPlayer)
    (advisors : List String) (reply okResp : ℕ → ℕ → String)
    (outcomeF : ℕ → List (String × String) → String)
    (k : ℕ) (spot : FailSpot) (e : String) : GameEnv :=
  { moves := moves, scenario := scenario, players := players, advisors := advisors,
    reply := reply,
    respond := fun m i =>
      if m = k ∧ spot = FailSpot.player i then .error e else .ok (okResp m i),
    adjudicate := fun m rs =>
      if m = k ∧ spot = FailSpot.adjudication then .error e else .ok (outcomeF m rs) }

/-- The responses a full (unfailed) poll of the given players produces at
move `m`, starting from player index `i`. -/
def expRespFrom (reply okResp : ℕ → ℕ → String) (m : ℕ) :
    List GPlayer → ℕ → List (String × String)
  | [], _ => []
  | p :: rest, i =>
    (p.name, match p.kind with
             | PKind.human => reply m i
             | PKind.ai => okResp m i) :: expRespFrom reply okResp m rest (i + 1)

/-- The narration entry preceding move `m` in an unfailed run: the
scenario for move 0, else the adjudicated outcome of move `m - 1`. -/
def expNarr (scenario : String) (players : List GPlayer)
    (reply okResp : ℕ → ℕ → String)
    (outcomeF : ℕ → List (String × String) → String) : ℕ → String
  | 0 => scenario
  | m + 1 => outcomeF m (expRespFrom reply okResp m players 0)

/-- The narrated timeline at the start of move `m` in an unfailed run. -/
def expHist (scenario : String) (players : List GPlayer)
    (reply okResp : ℕ → ℕ → String)
    (outcomeF : ℕ → List (String × String) → String) (m : ℕ) : List String :=
  scenario :: (List.range m).map
    (fun j => expNarr scenario players reply okResp outcomeF (j + 1))

/-- The room sends of one move's player loop over the given players:
one prompt (with the given narration) per human, in player order. -/
def expRowSends (players : List GPlayer) (narr : String) : List String :=
  (humansOf players).map (fun _ => promptMsg narr)

/-- The poll events of one move's player loop over `n` players. -/
def expRowPolled (m n : ℕ) : List (ℕ × ℕ) :=
  (List.range n).map (fun j => (m, j))

/-- How many players of the failing move are engaged before the run
aborts: through the failing player for a respond failure, all players
for an adjudication failure. -/
def cutPolled (spot : FailSpot) (n : ℕ) : ℕ :=
  match spot with
  | .player i => i + 1
  | .adjudication => n

/-- How many players of the failing move are engaged before any send can
be cut off: the failing player itself (an AI) sends nothing. -/
def cutSends (spot : FailSpot) (n : ℕ) : ℕ :=
  match spot with
  | .player i => i
  | .adjudication => n

/-! ## The task structure of `UserDefinedGame.__call__` -/

/-- The tasks `__call__` can start: an advisor's independent
`chat_session`, or the round loop `game()` itself. -/
inductive GameTask where
  | chatSession (advisor : String)
  | roundLoop
deriving DecidableEq

/-- How `__call__` runs: `solo` awaits `game()` directly (no task group,
no sibling tasks); `group ts` starts the tasks `ts` as siblings inside
one `asyncio.TaskGroup` — the runtime's cancellation scope whose first
unhandled failure cancels all siblings. -/
inductive LaunchPlan where
  | solo
  | group (tasks : List GameTask)
deriving DecidableEq

/-- Embeds `UserDefinedGame.__call__`: with `ai_only` set, `game()` is
awaited directly; otherwise one `chat_session` task per advisor (in
advisor order) plus the `game()` task are created inside one
`asyncio.TaskGroup`. -/
def callPlan (ai_only : Bool) (advisors : List String) : LaunchPlan :=
  if ai_only then .solo
  else .group (advisors.map GameTask.chatSession ++ [GameTask.roundLoop])

/-- Embeds the `ai_only` auto-detection of `scenario_loader.merge_config`:
`config['ai_only'] = not has_human` where `has_human` scans the players'
assigned kinds. -/
def mergedAiOnly (kinds : List PKind) : Bool :=
  !(kinds.any (fun c => c = PKind.human))

/-- Whether a task is an advisor chat session. -/
def isChatTask : GameTask → Bool
  | .chatSession _ => true
  | .roundLoop => false

/-- The tasks a launch plan actually runs: `solo` runs only the round
loop; `group ts` runs `ts`. -/
def planTasks : LaunchPlan → List GameTask
  | .solo => [.roundLoop]
  | .group ts => ts

/-! ## Budget enforcement (`check_budget`) -/

/-- `check_budget` returns normally exactly when both caps admit the
increment (strict comparison in the code, so equality passes). -/
theorem check_budget_ok_iff (t : CostTracker) (now x : ℚ) :
    (check_budget t now x = .ok ()) ↔
      (spend_last_24h t now + x ≤ t.daily_cap ∧ spend_total t + x ≤ t.total_cap) := by
  unfold check_budget
  split_ifs with h1 h2
  · constructor
    · intro h; simp at h
    · rintro ⟨ha, -⟩; exact absurd h1 (not_lt.mpr ha)
  · constructor
    · intro h; simp at h
    · rintro ⟨-, hb⟩; exact absurd h2 (not_lt.mpr hb)
  · exact ⟨fun _ => ⟨not_lt.mp h1, not_lt.mp h2⟩, fun _ => rfl⟩

/-- Claim C1: `check_budget(x)` raises `CostLimitExceeded` iff
`dailySpend + x > dailyCap` or `totalSpend + x > totalCap`, with strict
comparison only, so exact equality with a cap does not raise; the daily
check is performed before the total check (when both would fail, the
raised failure is the daily one), and the raised failure embeds the
current spend, the increment `x` and the cap of the check that failed.
Concretely, with daily cap 2.00, total cap 10.00 and a single recorded
cost of 1.50, `check_budget(0.60)` raises the daily failure even though
the total spend would pass. -/
theorem check_budget_correct (t : CostTracker) (now x : ℚ) :
    ((check_budget t now x = .ok ()) ↔
      (spend_last_24h t now + x ≤ t.daily_cap ∧ spend_total t + x ≤ t.total_cap))
    ∧ (spend_last_24h t now + x > t.daily_cap →
        check_budget t now x =
          .error ⟨WhichCap.daily, spend_last_24h t now, x, t.daily_cap⟩)
    ∧ (spend_last_24h t now + x ≤ t.daily_cap → spend_total t + x > t.total_cap →
        check_budget t now x =
          .error ⟨WhichCap.total, spend_total t, x, t.total_cap⟩)
    ∧ check_budget ((record ⟨2, 10, []⟩ 0 "google" "gemini-2.5-pro" 0 600000 1).1)
        0 (3/5) = .error ⟨WhichCap.daily, 3/2, 3/5, 2⟩ := by
  refine ⟨check_budget_ok_iff t now x, ?_, ?_, ?_⟩
  · intro h
    unfold check_budget
    rw [if_pos h]
  · intro h1 h2
    unfold check_budget
    rw [if_neg (not_lt.mpr h1), if_pos h2]
  · have hlook : lookup_pricing "google" "gemini-2.5-pro" = ⟨125/100, 10⟩ := rfl
    have hest : estimate_cost "google" "gemini-2.5-pro" 0 600000 = 3/2 := by
      simp only [estimate_cost, hlook, CHARS_PER_TOKEN]
      norm_num
    have hrec : (record ⟨2, 10, []⟩ 0 "google" "gemini-2.5-pro" 0 600000 1).1 =
        ⟨2, 10, [⟨0, "google", "gemini-2.5-pro", 0, 600000, round_to 2 1, 3/2⟩]⟩ := by
      simp only [record, mkEntry, hest]
      norm_num [round_to, pyRound]
    rw [hrec]
    have hdaily :
        spend_last_24h ⟨2, 10, [⟨0, "google", "gemini-2.5-pro", 0, 600000,
          round_to 2 1, 3/2⟩]⟩ 0 = 3/2 := by
      norm_num [spend_last_24h]
    unfold check_budget
    rw [hdaily, if_pos (by norm_num)]

/-- Witness for `check_budget_correct`: a daily failure (caps 2/10, one
in-window cost 1.50, increment 0.60) and a total failure (caps 10/2, one
out-of-window cost 1.50, increment 0.60). -/
theorem check_budget_correct_witness :
    check_budget ⟨2, 10, [⟨0, "g", "m", 0, 0, 1, 3/2⟩]⟩ 0 (3/5)
      = .error ⟨WhichCap.daily, 3/2, 3/5, 2⟩
    ∧ check_budget ⟨10, 2, [⟨-200000, "g", "m", 0, 0, 1, 3/2⟩]⟩ 0 (3/5)
      = .error ⟨WhichCap.total, 3/2, 3/5, 2⟩ := by
  constructor
  · have hd : spend_last_24h ⟨2, 10, [⟨0, "g", "m", 0, 0, 1, 3/2⟩]⟩ 0 = 3/2 := by
      norm_num [spend_last_24h]
    have h := (check_budget_correct ⟨2, 10, [⟨0, "g", "m", 0, 0, 1, 3/2⟩]⟩ 0 (3/5)).2.1
    rw [hd] at h
    exact h (by norm_num)
  · have hd : spend_last_24h ⟨10, 2, [⟨-200000, "g", "m", 0, 0, 1, 3/2⟩]⟩ 0 = 0 := by
      norm_num [spend_last_24h]
    have ht : spend_total ⟨10, 2, [⟨-200000, "g", "m", 0, 0, 1, 3/2⟩]⟩ = 3/2 := by
      norm_num [spend_total]
    have h := (check_budget_correct ⟨10, 2, [⟨-200000, "g", "m", 0, 0, 1, 3/2⟩]⟩
      0 (3/5)).2.2.1
    rw [hd, ht] at h
    exact h (by norm_num) (by norm_num)

/-! ## Pricing lookup and cost estimation -/

/-- `find?` returns the head of the first match: if nothing in `pre`
satisfies `p` and `x` does, the search over `pre ++ x :: suf` yields `x`. -/
theorem find?_append_first {α : Type} (p : α → Bool) (pre : List α) (x : α)
    (suf : List α) (hpre : ∀ y ∈ pre, p y = false) (hx : p x = true) :
    (pre ++ x :: suf).find? p = some x := by
  induction pre with
  | nil => simp [List.find?, hx]
  | cons a l ih =>
    have ha : p a = false := hpre a (by simp)
    simp only [List.cons_append, List.find?, ha]
    exact ih fun y hy => hpre y (by simp [hy])

/-- In an association list with pairwise distinct keys, `find?` by key
returns the unique entry holding that key. -/
theorem find?_key_unique (l : List ((String × String) × Pricing))
    (hnd : (l.map Prod.fst).Nodup) (k : String × String) (v : Pricing)
    (hm : (k, v) ∈ l) :
    l.find? (fun e => e.1 = k) = some (k, v) := by
  induction l with
  | nil => cases hm
  | cons a l ih =>
    rcases List.mem_cons.mp hm with h | h
    · subst h
      simp [List.find?]
    · have hk : a.1 ≠ k := by
        intro he
        exact (List.nodup_cons.mp hnd).1
          (he ▸ List.mem_map.mpr ⟨(k, v), h, rfl⟩)
      rw [List.find?_cons_of_neg _ (by simpa using hk)]
      exact ih (List.nodup_cons.mp hnd).2 h

/-- Claim C2: `estimate_cost` is the pure function
`(promptChars/4)·inputRate/1e6 + (responseChars/4)·outputRate/1e6`, with
the rate pair resolved by precedence: the local provider `ollama` is
always free for every model; otherwise the exact `(provider, model)`
table entry; otherwise the first declared entry whose provider matches
and whose model prefix is a prefix of the model; otherwise the fallback.
In particular every `ollama` estimate is 0. -/
theorem estimate_cost_spec (source model : String) (p r : ℕ) :
    estimate_cost source model p r =
      ((p : ℚ) / 4) * (lookup_pricing source model).input / 1000000
      + ((r : ℚ) / 4) * (lookup_pricing source model).output / 1000000
    ∧ estimate_cost "ollama" model p r = 0
    ∧ lookup_pricing "ollama" model = ⟨0, 0⟩
    ∧ (∀ pr : Pricing, source ≠ "ollama" → ((source, model), pr) ∈ PRICING →
        lookup_pricing source model = pr)
    ∧ (∀ pre e suf, source ≠ "ollama" →
        (source, model) ∉ PRICING.map Prod.fst →
        PRICING = pre ++ e :: suf →
        (∀ y ∈ pre, ¬(y.1.1 = source ∧ starts_with model y.1.2)) →
        e.1.1 = source → starts_with model e.1.2 →
        lookup_pricing source model = e.2)
    ∧ (source ≠ "ollama" →
        (source, model) ∉ PRICING.map Prod.fst →
        (∀ y ∈ PRICING, ¬(y.1.1 = source ∧ starts_with model y.1.2)) →
        lookup_pricing source model = FALLBACK_PRICING) := by
  have hexact_none : (source, model) ∉ PRICING.map Prod.fst →
      PRICING.find? (fun e => e.1 = (source, model)) = none := by
    intro hnex
    apply List.find?_eq_none.mpr
    intro y hy
    simp only [decide_eq_true_eq]
    intro he
    exact hnex (List.mem_map.mpr ⟨y, hy, he⟩)
  refine ⟨rfl, ?_, ?_, ?_, ?_, ?_⟩
  · simp [estimate_cost, lookup_pricing, CHARS_PER_TOKEN]
  · simp [lookup_pricing]
  · intro pr hs hm
    have hnd : (PRICING.map Prod.fst).Nodup := by decide
    have h1 := find?_key_unique PRICING hnd (source, model) pr hm
    simp [lookup_pricing, if_neg hs, h1]
  · intro pre e suf hs hnex hdecomp hpre he1 he2
    have h1 := hexact_none hnex
    have h2 : PRICING.find?
        (fun y => decide (y.1.1 = source) && starts_with model y.1.2) = some e := by
      rw [hdecomp]
      apply find?_append_first
      · intro y hy
        by_cases hsy : y.1.1 = source
        · cases hsw : starts_with model y.1.2
          · simp [hsw]
          · exact absurd ⟨hsy, hsw⟩ (hpre y hy)
        · simp [hsy]
      · simp [he1, he2]
    simp [lookup_pricing, if_neg hs, h1, h2]
  · intro hs hnex hno
    have h1 := hexact_none hnex
    have h2 : PRICING.find?
        (fun y => decide (y.1.1 = source) && starts_with model y.1.2) = none := by
      apply List.find?_eq_none.mpr
      intro y hy hcontra
      rw [Bool.and_eq_true, decide_eq_true_eq] at hcontra
      exact hno y hy hcontra
    simp [lookup_pricing, if_neg hs, h1, h2]

/-- Witness for `estimate_cost_spec`: the local provider is free; the
exact entry wins for `("google", "gemini-2.5-pro")`; the first declared
prefix entry (`gpt-4o`, not `gpt-4o-mini`) wins for
`("openai", "gpt-4o-mini-2024")`; an unknown provider falls back. -/
theorem estimate_cost_spec_witness :
    estimate_cost "ollama" "llama3" 123 456 = 0
    ∧ lookup_pricing "google" "gemini-2.5-pro" = ⟨125/100, 10⟩
    ∧ lookup_pricing "openai" "gpt-4o-mini-2024" = ⟨250/100, 10⟩
    ∧ lookup_pricing "anthropic" "claude-3-opus" = FALLBACK_PRICING := by
  refine ⟨(estimate_cost_spec "ollama" "llama3" 123 456).2.1, ?_, ?_, ?_⟩
  · exact (estimate_cost_spec "google" "gemini-2.5-pro" 0 0).2.2.2.1
      ⟨125/100, 10⟩ (by decide) (List.Mem.tail _ (List.Mem.head _))
  · exact (estimate_cost_spec "openai" "gpt-4o-mini-2024" 0 0).2.2.2.2.1
      [(("google", "gemini-2.5-flash"), ⟨15/100, 60/100⟩),
       (("google", "gemini-2.5-pro"),   ⟨125/100, 10⟩),
       (("google", "gemini-2.0-flash"), ⟨10/100, 40/100⟩),
       (("ollama", ""),                 ⟨0, 0⟩)]
      (("openai", "gpt-4o"), ⟨250/100, 10⟩)
      [(("openai", "gpt-4o-mini"), ⟨15/100, 60/100⟩)]
      (by decide) (by decide) rfl (by decide) (by decide) (by decide)
  · exact (estimate_cost_spec "anthropic" "claude-3-opus" 0 0).2.2.2.2.2
      (by decide) (by decide) (by decide)

/-- Claim C7: an unmatched `(provider, model)` pair — no exact entry, no
provider-plus-prefix entry, and not the free local provider — resolves to
the fallback rates, and the fallback's input and output rates are each
strictly higher than those of every declared pricing entry. -/
theorem fallback_rates_pessimistic (source model : String)
    (hs : source ≠ "ollama")
    (hnex : (source, model) ∉ PRICING.map Prod.fst)
    (hno : ∀ y ∈ PRICING, ¬(y.1.1 = source ∧ starts_with model y.1.2)) :
    lookup_pricing source model = FALLBACK_PRICING
    ∧ ∀ e ∈ PRICING, e.2.input < FALLBACK_PRICING.input
        ∧ e.2.output < FALLBACK_PRICING.output := by
  constructor
  · exact (estimate_cost_spec source model 0 0).2.2.2.2.2 hs hnex hno
  · intro e he
    fin_cases he <;> constructor <;> norm_num [FALLBACK_PRICING]

/-- Witness for `fallback_rates_pessimistic` at the unregistered pair
`("anthropic", "claude-3-opus")`. -/
theorem fallback_rates_pessimistic_witness :
    lookup_pricing "anthropic" "claude-3-opus" = FALLBACK_PRICING
    ∧ ∀ e ∈ PRICING, e.2.input < FALLBACK_PRICING.input
        ∧ e.2.output < FALLBACK_PRICING.output :=
  fallback_rates_pessimistic "anthropic" "claude-3-opus"
    (by decide) (by decide) (by decide)

/-! ## Recording calls -/

/-- The `estimate_cost` formula with its locals inlined. -/
theorem estimate_cost_eq (source model : String) (p r : ℕ) :
    estimate_cost source model p r =
      ((p : ℚ) / 4) * (lookup_pricing source model).input / 1000000
      + ((r : ℚ) / 4) * (lookup_pricing source model).output / 1000000 := rfl

/-- Every pricing pair the lookup can return has non-negative rates. -/
theorem lookup_pricing_nonneg (source model : String) :
    0 ≤ (lookup_pricing source model).input
    ∧ 0 ≤ (lookup_pricing source model).output := by
  have hall : ∀ e ∈ PRICING, 0 ≤ e.2.input ∧ 0 ≤ e.2.output := by
    intro e he
    fin_cases he <;> constructor <;> norm_num
  unfold lookup_pricing
  split_ifs with h
  · constructor <;> norm_num
  · split
    next e heq => exact hall e (List.mem_of_find?_eq_some heq)
    next heq =>
      split
      next e2 heq2 => exact hall e2 (List.mem_of_find?_eq_some heq2)
      next heq2 => constructor <;> norm_num [FALLBACK_PRICING]

/-- Estimated costs are never negative. -/
theorem estimate_cost_nonneg (source model : String) (p r : ℕ) :
    0 ≤ estimate_cost source model p r := by
  obtain ⟨hi, ho⟩ := lookup_pricing_nonneg source model
  rw [estimate_cost_eq]
  have hp : (0 : ℚ) ≤ (p : ℚ) := Nat.cast_nonneg p
  have hr : (0 : ℚ) ≤ (r : ℚ) := Nat.cast_nonneg r
  apply add_nonneg
  · apply div_nonneg _ (by norm_num)
    exact mul_nonneg (div_nonneg hp (by norm_num)) hi
  · apply div_nonneg _ (by norm_num)
    exact mul_nonneg (div_nonneg hr (by norm_num)) ho

/-- Python `round` preserves non-negativity. -/
theorem pyRound_nonneg (x : ℚ) (hx : 0 ≤ x) : 0 ≤ pyRound x := by
  have hf : (0 : ℤ) ≤ ⌊x⌋ := Int.floor_nonneg.mpr hx
  unfold pyRound
  split_ifs <;> omega

/-- Rounding to decimal places preserves non-negativity. -/
theorem round_to_nonneg (nd : ℕ) (x : ℚ) (hx : 0 ≤ x) : 0 ≤ round_to nd x := by
  have h1 : (0 : ℚ) ≤ x * 10 ^ nd := mul_nonneg hx (by positivity)
  have h2 := pyRound_nonneg _ h1
  unfold round_to
  apply div_nonneg _ (by positivity)
  exact_mod_cast h2

/-- Appending a record timestamped inside the window raises the window
spend by exactly its cost. -/
theorem spend_last_24h_append (t : CostTracker) (now : ℚ) (e : CostRecord)
    (he : now - 86400 ≤ e.ts) :
    spend_last_24h { t with records := t.records ++ [e] } now
      = spend_last_24h t now + e.cost := by
  have he' : now ≤ e.ts + 86400 := by linarith
  simp [spend_last_24h, List.filter_append, he']

/-- Appending a record raises the total spend by exactly its cost. -/
theorem spend_total_append (t : CostTracker) (e : CostRecord) :
    spend_total { t with records := t.records ++ [e] } = spend_total t + e.cost := by
  simp [spend_total]

/-- Claim C5: every `record` call appends exactly one record at the end
of the record sequence, whose `cost` field is the pricing estimate
rounded to 6 decimals (hence non-negative) and whose `duration` is
rounded to 2 decimals; previously appended records are untouched, the
caps are untouched, and the unrounded computed cost is returned. -/
theorem record_appends_one (t : CostTracker) (now : ℚ) (source model : String)
    (p r : ℕ) (dur : ℚ) :
    (record t now source model p r dur).1.records
      = t.records ++ [mkEntry now source model p r dur]
    ∧ (record t now source model p r dur).1.records.take t.records.length = t.records
    ∧ (mkEntry now source model p r dur).cost
        = round_to 6 (estimate_cost source model p r)
    ∧ (mkEntry now source model p r dur).duration = round_to 2 dur
    ∧ 0 ≤ (mkEntry now source model p r dur).cost
    ∧ (record t now source model p r dur).2 = estimate_cost source model p r
    ∧ (record t now source model p r dur).1.daily_cap = t.daily_cap
    ∧ (record t now source model p r dur).1.total_cap = t.total_cap := by
  refine ⟨rfl, ?_, rfl, rfl, ?_, rfl, rfl, rfl⟩
  · simp [record, List.take_left]
  · exact round_to_nonneg 6 _ (estimate_cost_nonneg source model p r)

/-- Claim C10: `record` never enforces the caps — even from a state
already over a cap (one where `check_budget(0)` raises), `record` still
appends its entry, returns the computed cost, and only subsequent
`check_budget` calls raise (and still do afterwards, spends having only
grown). -/
theorem record_ignores_caps (t : CostTracker) (now : ℚ) (source model : String)
    (p r : ℕ) (dur : ℚ)
    (h : check_budget t now 0 ≠ .ok ()) :
    record t now source model p r dur
      = (⟨t.daily_cap, t.total_cap,
          t.records ++ [mkEntry now source model p r dur]⟩,
         estimate_cost source model p r)
    ∧ check_budget (record t now source model p r dur).1 now 0 ≠ .ok () := by
  refine ⟨rfl, ?_⟩
  intro hok
  apply h
  rw [check_budget_ok_iff] at hok ⊢
  have hcost : 0 ≤ (mkEntry now source model p r dur).cost :=
    round_to_nonneg 6 _ (estimate_cost_nonneg source model p r)
  have hts : now - 86400 ≤ (mkEntry now source model p r dur).ts := by
    show now - 86400 ≤ now
    linarith
  have hd := spend_last_24h_append t now (mkEntry now source model p r dur) hts
  have ht := spend_total_append t (mkEntry now source model p r dur)
  have hd' : spend_last_24h (record t now source model p r dur).1 now
      = spend_last_24h t now + (mkEntry now source model p r dur).cost := hd
  have ht' : spend_total (record t now source model p r dur).1
      = spend_total t + (mkEntry now source model p r dur).cost := ht
  rw [hd', ht'] at hok
  have hcap1 : (record t now source model p r dur).1.daily_cap = t.daily_cap := rfl
  have hcap2 : (record t now source model p r dur).1.total_cap = t.total_cap := rfl
  rw [hcap1, hcap2] at hok
  exact ⟨by linarith [hok.1], by linarith [hok.2]⟩

/-- Witness for `record_ignores_caps`: a ledger already over its daily
cap (spend 2 against cap 1) still records a free local call. -/
theorem record_ignores_caps_witness :
    record ⟨1, 10, [⟨0, "g", "m", 0, 0, 1, 2⟩]⟩ 0 "ollama" "m2" 4 4 1
      = (⟨1, 10, [⟨0, "g", "m", 0, 0, 1, 2⟩] ++ [mkEntry 0 "ollama" "m2" 4 4 1]⟩,
         estimate_cost "ollama" "m2" 4 4)
    ∧ check_budget
        (record ⟨1, 10, [⟨0, "g", "m", 0, 0, 1, 2⟩]⟩ 0 "ollama" "m2" 4 4 1).1
        0 0 ≠ .ok () := by
  apply record_ignores_caps
  intro hcontra
  rw [check_budget_ok_iff] at hcontra
  have hd : spend_last_24h ⟨1, 10, [⟨0, "g", "m", 0, 0, 1, 2⟩]⟩ 0 = 2 := by
    norm_num [spend_last_24h]
  rw [hd] at hcontra
  have h1 : (2 : ℚ) + 0 ≤ 1 := hcontra.1
  linarith

/-! ## Ledger load, save and reload -/

/-- Claim C4 (behaviour of `_load` on every file state): a missing file
and caught failures (`IOError`, `JSONDecodeError`) yield an empty ledger
— the latter two with a warning — and a parsable array is loaded as-is;
but a present file whose bytes are not valid UTF-8 makes the text-mode
read inside `json.load` raise `UnicodeDecodeError`, which the
`except (json.JSONDecodeError, IOError)` clause does not catch, so
ledger construction fails for that state of the backing file. -/
theorem load_behaviour :
    load FileState.missing = .ok ([], false)
    ∧ load FileState.ioErr = .ok ([], true)
    ∧ load FileState.badJson = .ok ([], true)
    ∧ (∀ rs, load (FileState.jsonList rs) = .ok (rs, false))
    ∧ load FileState.invalidUtf8 = .error PyExn.unicodeDecodeError
    ∧ mkTracker FileState.invalidUtf8 2 10 = .error PyExn.unicodeDecodeError :=
  ⟨rfl, rfl, rfl, fun _ => rfl, rfl, rfl⟩

/-- `applyCalls` never changes the caps. -/
theorem applyCalls_shape (calls : List RecCall) (t : CostTracker) :
    applyCalls t calls = ⟨t.daily_cap, t.total_cap, (applyCalls t calls).records⟩ := by
  induction calls generalizing t with
  | nil => rfl
  | cons c cs ih =>
    simp only [applyCalls, List.foldl_cons] at *
    exact ih _

/-- Each call in a sequence appends exactly one record. -/
theorem applyCalls_length (calls : List RecCall) (t : CostTracker) :
    (applyCalls t calls).records.length = t.records.length + calls.length := by
  induction calls generalizing t with
  | nil => rfl
  | cons c cs ih =>
    simp only [applyCalls, List.foldl_cons] at *
    rw [ih]
    simp [record]
    omega

/-- Claim C6: after any sequence of `record` calls, reconstructing a
tracker from the saved backing file with the same caps yields the very
same ledger state, hence an equal `summary()` at any time, with
`call_count` equal to the number of calls. -/
theorem reload_roundtrip (calls : List RecCall) (dc tc now : ℚ) :
    mkTracker (save_file (applyCalls ⟨dc, tc, []⟩ calls)) dc tc
      = .ok (applyCalls ⟨dc, tc, []⟩ calls)
    ∧ (∀ t2, mkTracker (save_file (applyCalls ⟨dc, tc, []⟩ calls)) dc tc = .ok t2 →
        summary t2 now = summary (applyCalls ⟨dc, tc, []⟩ calls) now)
    ∧ (summary (applyCalls ⟨dc, tc, []⟩ calls) now).call_count = calls.length := by
  have hshape := applyCalls_shape calls ⟨dc, tc, []⟩
  have h1 : mkTracker (save_file (applyCalls ⟨dc, tc, []⟩ calls)) dc tc
      = .ok (applyCalls ⟨dc, tc, []⟩ calls) := by
    conv_rhs => rw [hshape]
    rfl
  refine ⟨h1, ?_, ?_⟩
  · intro t2 ht2
    rw [h1] at ht2
    rw [Except.ok.injEq] at ht2
    rw [ht2]
  · show (applyCalls ⟨dc, tc, []⟩ calls).records.length = calls.length
    rw [applyCalls_length]
    simp

/-- Claim C8 (counterexample): two tracker instances that both loaded
the same empty backing file each complete one `record` call; each
completed write is a whole parsable array, but the final file — the
second writer's save — does not contain the first call's record, so the
final file is not the union of both calls' records. -/
theorem concurrent_union_counterexample :
    save_file (record ⟨2, 10, []⟩ 0 "ollama" "m1" 4 4 1).1
      = FileState.jsonList [mkEntry 0 "ollama" "m1" 4 4 1]
    ∧ save_file (record ⟨2, 10, []⟩ 0 "ollama" "m2" 4 4 1).1
      = FileState.jsonList [mkEntry 0 "ollama" "m2" 4 4 1]
    ∧ mkEntry 0 "ollama" "m1" 4 4 1
        ∈ (record ⟨2, 10, []⟩ 0 "ollama" "m1" 4 4 1).1.records
    ∧ mkEntry 0 "ollama" "m1" 4 4 1 ∉ [mkEntry 0 "ollama" "m2" 4 4 1] := by
  refine ⟨rfl, rfl, by simp [record], ?_⟩
  intro hmem
  rw [List.mem_singleton] at hmem
  exact absurd (congrArg CostRecord.model hmem) (by decide)

/-- Claim C8 amended: with whole-file writes the backing file parses as
a complete record array after every completed write, but the final file
equals the last completed writer's in-memory list — the initial contents
plus only its own entry — so the other instance's record is absent
whenever it was not already in the initially loaded contents. -/
theorem record_last_writer_wins (f0 : List CostRecord) (dc tc : ℚ)
    (a b : RecCall) (tA tB : CostTracker)
    (hA : mkTracker (FileState.jsonList f0) dc tc = .ok tA)
    (hB : mkTracker (FileState.jsonList f0) dc tc = .ok tB) :
    save_file (record tA a.ts a.source a.model a.prompt_chars a.response_chars
        a.duration).1
      = FileState.jsonList (f0 ++
          [mkEntry a.ts a.source a.model a.prompt_chars a.response_chars a.duration])
    ∧ save_file (record tB b.ts b.source b.model b.prompt_chars b.response_chars
        b.duration).1
      = FileState.jsonList (f0 ++
          [mkEntry b.ts b.source b.model b.prompt_chars b.response_chars b.duration])
    ∧ (mkEntry a.ts a.source a.model a.prompt_chars a.response_chars a.duration ∉ f0 →
        mkEntry a.ts a.source a.model a.prompt_chars a.response_chars a.duration
          ≠ mkEntry b.ts b.source b.model b.prompt_chars b.response_chars b.duration →
        mkEntry a.ts a.source a.model a.prompt_chars a.response_chars a.duration
          ∉ f0 ++
            [mkEntry b.ts b.source b.model b.prompt_chars b.response_chars b.duration]) := by
  have htA : tA = ⟨dc, tc, f0⟩ := by
    have h : (Except.ok (⟨dc, tc, f0⟩ : CostTracker) : Except PyExn CostTracker)
        = .ok tA := by rw [← hA]; rfl
    exact (Except.ok.inj h).symm
  have htB : tB = ⟨dc, tc, f0⟩ := by
    have h : (Except.ok (⟨dc, tc, f0⟩ : CostTracker) : Except PyExn CostTracker)
        = .ok tB := by rw [← hB]; rfl
    exact (Except.ok.inj h).symm
  subst htA htB
  refine ⟨rfl, rfl, ?_⟩
  intro h1 h2 hmem
  rcases List.mem_append.mp hmem with h | h
  · exact h1 h
  · rw [List.mem_singleton] at h
    exact h2 h

/-- Witness for `record_last_writer_wins`: starting from an empty file,
the first writer's record is lost from the final file. -/
theorem record_last_writer_wins_witness :
    mkEntry 0 "ollama" "w1" 4 4 1
      ∉ ([] : List CostRecord) ++ [mkEntry 0 "ollama" "w2" 4 4 1] :=
  (record_last_writer_wins [] 2 10 ⟨0, "ollama", "w1", 4, 4, 1⟩
      ⟨0, "ollama", "w2", 4, 4, 1⟩ ⟨2, 10, []⟩ ⟨2, 10, []⟩ rfl rfl).2.2
    (by simp)
    (by intro h; exact absurd (congrArg CostRecord.model h) (by decide))

/-! ## Task structure of `__call__` -/

/-- Claim C9: with the session's `ai_only` flag — which
`merge_config` derives as "no human among the assigned player kinds" — a
fully AI-only session awaits the round loop directly and starts no
advisor chat-session task; a session with at least one human participant
starts one chat-session task per advisor plus the round loop as sibling
tasks inside one `asyncio.TaskGroup`, the runtime cancellation scope
whose first unhandled failure cancels all siblings. -/
theorem call_plan_correct (kinds : List PKind) (advisors : List String) :
    (mergedAiOnly kinds = true ↔ ∀ c ∈ kinds, c ≠ PKind.human)
    ∧ ((∃ c ∈ kinds, c = PKind.human) →
        callPlan (mergedAiOnly kinds) advisors =
          .group (advisors.map GameTask.chatSession ++ [GameTask.roundLoop]))
    ∧ ((∀ c ∈ kinds, c ≠ PKind.human) →
        callPlan (mergedAiOnly kinds) advisors = .solo
        ∧ (planTasks (callPlan (mergedAiOnly kinds) advisors)).filter isChatTask
            = []) := by
  have hiff : mergedAiOnly kinds = true ↔ ∀ c ∈ kinds, c ≠ PKind.human := by
    simp [mergedAiOnly, List.any_eq_false]
  refine ⟨hiff, ?_, ?_⟩
  · rintro ⟨c, hc, hh⟩
    have hfalse : mergedAiOnly kinds = false := by
      simp [mergedAiOnly, List.any_eq_true]
      exact hh ▸ hc
    simp [callPlan, hfalse]
  · intro hall
    have htrue : mergedAiOnly kinds = true := hiff.mpr hall
    constructor
    · simp [callPlan, htrue]
    · simp [callPlan, htrue, planTasks, isChatTask]

/-- Witness for `call_plan_correct`: one human and two advisors start a
task group of both chat sessions plus the round loop; an all-AI pair of
players starts the round loop alone. -/
theorem call_plan_correct_witness :
    callPlan (mergedAiOnly [PKind.ai, PKind.human]) ["adv1", "adv2"]
      = .group (["adv1", "adv2"].map GameTask.chatSession ++ [GameTask.roundLoop])
    ∧ callPlan (mergedAiOnly [PKind.ai, PKind.ai]) ["adv1"] = .solo :=
  ⟨(call_plan_correct [PKind.ai, PKind.human] ["adv1", "adv2"]).2.1
      ⟨PKind.human, by simp, rfl⟩,
   ((call_plan_correct [PKind.ai, PKind.ai] ["adv1"]).2.2 (by decide)).1⟩

/-! ## The round loop under a budget failure -/

/-- Peeling the first poll event of a row off a shifted range. -/
theorem range_pair_shift (m i n : ℕ) :
    (m, i) :: (List.range n).map (fun j => (m, i + 1 + j))
      = (List.range (n + 1)).map (fun j => (m, i + j)) := by
  rw [List.range_succ_eq_map, List.map_cons, List.map_map]
  refine congrArg₂ List.cons (by simp) ?_
  apply List.map_congr_left
  intro j hj
  show (m, i + 1 + j) = (m, i + (j + 1))
  congr 1
  omega

/-- A range of poll events starting at player 0. -/
theorem range_pair_zero (m q : ℕ) :
    (List.range q).map (fun j => (m, 0 + j)) = (List.range q).map (fun j => (m, j)) :=
  List.map_congr_left fun j _ => by simp

/-- The expected timeline grows by one narration entry per move. -/
theorem expHist_succ (sc : String) (ps : List GPlayer)
    (reply okResp : ℕ → ℕ → String)
    (outF : ℕ → List (String × String) → String) (m : ℕ) :
    expHist sc ps reply okResp outF (m + 1)
      = expHist sc ps reply okResp outF m
        ++ [expNarr sc ps reply okResp outF (m + 1)] := by
  unfold expHist
  rw [List.range_succ, List.map_append]
  simp

/-- The latest narration at the start of move `m` is `expNarr m`. -/
theorem lastNarr_expHist (sc : String) (ps : List GPlayer)
    (reply okResp : ℕ → ℕ → String)
    (outF : ℕ → List (String × String) → String) (m : ℕ) :
    lastNarr (expHist sc ps reply okResp outF m)
      = expNarr sc ps reply okResp outF m := by
  cases m with
  | zero => rfl
  | succ j =>
    rw [expHist_succ]
    unfold lastNarr
    rw [List.getLast?_concat]
    rfl

/-- A player row in which no respond call fails: every player is engaged
in order, each human is sent the one prompt of the move, and the
collected responses are the scripted ones. -/
theorem pollPlayers_row_ok (n : ℕ) (sc : String) (ps : List GPlayer)
    (adv : List String) (reply okResp : ℕ → ℕ → String)
    (outF : ℕ → List (String × String) → String) (k : ℕ) (spot : FailSpot)
    (e : String) (m : ℕ) (hist : List String)
    (hm : ∀ i, ¬(m = k ∧ spot = FailSpot.player i)) :
    ∀ (l : List GPlayer) (i : ℕ) (acc : List (String × String)) (st : LoopSt),
      pollPlayers (mkFailEnv n sc ps adv reply okResp outF k spot e) m hist l i acc st
        = (⟨st.sends ++ (humansOf l).map (fun _ => promptMsg (lastNarr hist)),
            st.polled ++ (List.range l.length).map (fun j => (m, i + j))⟩,
           .ok (acc ++ expRespFrom reply okResp m l i)) := by
  intro l
  induction l with
  | nil =>
    intro i acc st
    simp [pollPlayers, humansOf, expRespFrom]
  | cons p rest ih =>
    intro i acc st
    cases hk : p.kind with
    | human =>
      simp only [pollPlayers, hk]
      rw [ih]
      simp only [List.append_assoc, List.singleton_append, List.length_cons]
      rw [range_pair_shift]
      simp [humansOf, List.filter_cons, hk, expRespFrom, mkFailEnv]
    | ai =>
      have hresp : (mkFailEnv n sc ps adv reply okResp outF k spot e).respond m i
          = .ok (okResp m i) := by
        simp [mkFailEnv, hm i]
      simp only [pollPlayers, hk, hresp]
      rw [ih]
      simp only [List.append_assoc, List.singleton_append, List.length_cons]
      rw [range_pair_shift]
      simp [humansOf, List.filter_cons, hk, expRespFrom]

/-- A player row whose AI player at absolute index `f` raises: players
up to and including `f` are engaged (each earlier human gets its prompt;
the failing AI sends nothing), nobody after `f` is engaged, and the loop
aborts with the failure. -/
theorem pollPlayers_row_err (n : ℕ) (sc : String) (ps : List GPlayer)
    (adv : List String) (reply okResp : ℕ → ℕ → String)
    (outF : ℕ → List (String × String) → String) (k : ℕ) (e : String) (f : ℕ)
    (hist : List String) :
    ∀ (l : List GPlayer) (i : ℕ) (acc : List (String × String)) (st : LoopSt),
      i ≤ f → ∀ (pf : GPlayer), l[f - i]? = some pf → pf.kind = PKind.ai →
      pollPlayers (mkFailEnv n sc ps adv reply okResp outF k (FailSpot.player f) e)
          k hist l i acc st
        = (⟨st.sends ++ (humansOf (l.take (f - i))).map
              (fun _ => promptMsg (lastNarr hist)),
            st.polled ++ (List.range (f - i + 1)).map (fun j => (k, i + j))⟩,
           .error e) := by
  intro l
  induction l with
  | nil =>
    intro i acc st hif pf hpf hai
    simp at hpf
  | cons p rest ih =>
    intro i acc st hif pf hpf hai
    by_cases hfi : i = f
    · have h0 : f - i = 0 := by omega
      rw [h0] at hpf
      simp only [List.getElem?_cons_zero, Option.some.injEq] at hpf
      have hk : p.kind = PKind.ai := by rw [hpf]; exact hai
      have hresp :
          (mkFailEnv n sc ps adv reply okResp outF k (FailSpot.player f) e).respond k i
            = .error e := by
        simp [mkFailEnv, hfi]
      simp only [pollPlayers, hk, hresp]
      rw [h0]
      simp [humansOf, List.range_succ]
    · have hlt : i < f := lt_of_le_of_ne hif hfi
      have hsub : f - i = (f - (i + 1)) + 1 := by omega
      have hpf' : rest[f - (i + 1)]? = some pf := by
        rw [hsub] at hpf
        simpa using hpf
      cases hk : p.kind with
      | human =>
        simp only [pollPlayers, hk]
        rw [ih (i + 1) _ _ (by omega) pf hpf' hai]
        rw [hsub, List.take_succ_cons]
        simp only [List.append_assoc, List.singleton_append]
        rw [range_pair_shift]
        simp [humansOf, List.filter_cons, hk]
      | ai =>
        have hne : ¬(k = k ∧ FailSpot.player f = FailSpot.player i) := by
          rintro ⟨-, hc⟩
          injection hc with hc2
          omega
        have hresp :
            (mkFailEnv n sc ps adv reply okResp outF k (FailSpot.player f) e).respond k i
              = .ok (okResp k i) := by
          simp only [mkFailEnv, true_and, FailSpot.player.injEq]
          rw [if_neg (by omega : ¬f = i)]
        simp only [pollPlayers, hk, hresp]
        rw [ih (i + 1) _ _ (by omega) pf hpf' hai]
        rw [hsub, List.take_succ_cons]
        simp only [List.append_assoc, List.singleton_append]
        rw [range_pair_shift]
        simp [humansOf, List.filter_cons, hk]

/-- The move loop from move `m` (with the expected timeline and `m`
moves completed) runs every move before `k` in full, then aborts inside
move `k` at the scripted failure: the timeline stops at `expHist k`,
`moves_completed` stays `k`, the failure is carried out, and the send
and poll logs extend by exactly the full rows before `k` plus the
truncated row of move `k`. -/
theorem runMoves_to_failure (n : ℕ) (sc : String) (ps : List GPlayer)
    (adv : List String) (reply okResp : ℕ → ℕ → String)
    (outF : ℕ → List (String × String) → String) (k : ℕ) (spot : FailSpot)
    (e : String)
    (hsp : ∀ f, spot = FailSpot.player f →
      ∃ p, ps[f]? = some p ∧ p.kind = PKind.ai) :
    ∀ (c m : ℕ), m + c = k → ∀ (r : ℕ), c < r → ∀ (st : LoopSt),
      runMoves (mkFailEnv n sc ps adv reply okResp outF k spot e) m r
          (expHist sc ps reply okResp outF m) st m
        = (expHist sc ps reply okResp outF k,
           ⟨st.sends
              ++ ((List.range' m (k - m)).map
                  (fun j => expRowSends ps (expNarr sc ps reply okResp outF j))).flatten
              ++ expRowSends (ps.take (cutSends spot ps.length))
                  (expNarr sc ps reply okResp outF k),
            st.polled
              ++ ((List.range' m (k - m)).map
                  (fun j => expRowPolled j ps.length)).flatten
              ++ (List.range (cutPolled spot ps.length)).map (fun j => (k, j))⟩,
           k, some e) := by
  have hpl : (mkFailEnv n sc ps adv reply okResp outF k spot e).players = ps := rfl
  intro c
  induction c with
  | zero =>
    intro m hm r hr st
    have hmk : m = k := by omega
    subst hmk
    cases r with
    | zero => omega
    | succ r' =>
      simp only [runMoves]
      rw [hpl]
      cases spot with
      | player f =>
        obtain ⟨pf, hpf, hai⟩ := hsp f rfl
        rw [pollPlayers_row_err n sc ps adv reply okResp outF m e f
          (expHist sc ps reply okResp outF m) ps 0 [] st (by omega) pf
          (by simpa using hpf) hai]
        simp [cutSends, cutPolled, expRowSends, lastNarr_expHist, range_pair_zero]
      | adjudication =>
        rw [pollPlayers_row_ok n sc ps adv reply okResp outF m FailSpot.adjudication
          e m (expHist sc ps reply okResp outF m)
          (by rintro i ⟨-, hc⟩; cases hc) ps 0 [] st]
        have hadj : (mkFailEnv n sc ps adv reply okResp outF m
            FailSpot.adjudication e).adjudicate m
              (expRespFrom reply okResp m ps 0) = .error e := by
          simp [mkFailEnv]
        simp [hadj, cutSends, cutPolled, expRowSends, lastNarr_expHist,
          range_pair_zero, List.take_length]
  | succ c ihc =>
    intro m hm r hr st
    cases r with
    | zero => omega
    | succ r' =>
      have hmlt : m < k := by omega
      simp only [runMoves]
      rw [hpl]
      rw [pollPlayers_row_ok n sc ps adv reply okResp outF k spot e m
        (expHist sc ps reply okResp outF m)
        (by rintro i ⟨h1, -⟩; omega) ps 0 [] st]
      have hadj : (mkFailEnv n sc ps adv reply okResp outF k spot e).adjudicate m
          ([] ++ expRespFrom reply okResp m ps 0)
            = .ok (expNarr sc ps reply okResp outF (m + 1)) := by
        have hne2 : ¬(m = k ∧ spot = FailSpot.adjudication) := by
          rintro ⟨h1, -⟩; omega
        simp [mkFailEnv, hne2, expNarr]
      simp only [hadj]
      rw [← expHist_succ]
      rw [ihc (m + 1) (by omega) r' (by omega) _]
      have hsub : k - m = (k - (m + 1)) + 1 := by omega
      rw [hsub, List.range'_succ]
      simp [expRowSends, expRowPolled, lastNarr_expHist, range_pair_zero,
        List.append_assoc]

/-- `game` in terms of the outcome of its move loop: the sends of the
loop, then (on a caught budget failure) one budget message per human,
then one game-over message per human; the loop's timeline, move count
and failure are reported and every advisor is deactivated. -/
theorem game_eq (env : GameEnv) (hist : List String) (st : LoopSt) (done : ℕ)
    (err : Option String)
    (hrun : runMoves env 0 env.moves [env.scenario]
      ⟨(humansOf env.players).map (fun p => "You are " ++ p.name ++ "."), []⟩ 0
      = (hist, st, done, err)) :
    game env = ⟨(st.sends ++ budgetSends env err)
        ++ (humansOf env.players).map (fun _ => gameOverMsg hist),
      st.polled, hist, done, err, env.advisors.map (fun a => (a, false))⟩ := by
  simp only [game, hrun]
  rfl

/-- Claim C3: if, during move `k` of an `n`-move game, an AI player's
respond call or the adjudication call raises the budget condition (every
earlier call succeeding), then the run returns normally (the exception
is caught — no crash) with: the poll log ending inside move `k` — no
further player of that move, no later move; every human player sent
exactly one message embedding the failure text and afterwards the final
game-over narration; every advisor's active flag set to `False`; and
`movesCompleted = k < n`. -/
theorem game_aborts_on_budget (n : ℕ) (sc : String) (ps : List GPlayer)
    (adv : List String) (reply okResp : ℕ → ℕ → String)
    (outF : ℕ → List (String × String) → String) (k : ℕ) (spot : FailSpot)
    (e : String) (hk : k < n)
    (hsp : ∀ f, spot = FailSpot.player f →
      ∃ p, ps[f]? = some p ∧ p.kind = PKind.ai) :
    game (mkFailEnv n sc ps adv reply okResp outF k spot e)
      = ⟨(humansOf ps).map (fun p => "You are " ++ p.name ++ ".")
          ++ ((List.range' 0 k).map
              (fun j => expRowSends ps (expNarr sc ps reply okResp outF j))).flatten
          ++ expRowSends (ps.take (cutSends spot ps.length))
              (expNarr sc ps reply okResp outF k)
          ++ (humansOf ps).map (fun _ => budgetMsg e)
          ++ (humansOf ps).map
              (fun _ => gameOverMsg (expHist sc ps reply okResp outF k)),
         ((List.range' 0 k).map (fun j => expRowPolled j ps.length)).flatten
          ++ (List.range (cutPolled spot ps.length)).map (fun j => (k, j)),
         expHist sc ps reply okResp outF k,
         k, some e,
         adv.map (fun a => (a, false))⟩
      ∧ k < n := by
  refine ⟨?_, hk⟩
  have hrun := runMoves_to_failure n sc ps adv reply okResp outF k spot e hsp k 0
    (by omega) n (by omega)
    ⟨(humansOf ps).map (fun p => "You are " ++ p.name ++ "."), []⟩
  have hg := game_eq (mkFailEnv n sc ps adv reply okResp outF k spot e)
    _ _ _ _ hrun
  rw [hg]
  simp [List.append_assoc, budgetSends, mkFailEnv]

/-- Witness for `game_aborts_on_budget`: a 4-move game with AI players
Alpha and Beta, human Carol and one advisor, in which Beta's respond
call raises at move 2: moves 0 and 1 complete, move 2 stops at Beta,
Carol gets the two prompts, then the budget message, then the game-over
message, and the advisor is deactivated. -/
theorem game_aborts_on_budget_witness :
    (game (mkFailEnv 4 "scene" [⟨"Alpha", PKind.ai⟩, ⟨"Beta", PKind.ai⟩,
        ⟨"Carol", PKind.human⟩] ["Adv"] (fun _ _ => "reply") (fun _ _ => "resp")
        (fun _ _ => "outcome") 2 (FailSpot.player 1) "over budget")).stopped
      = some "over budget"
    ∧ (game (mkFailEnv 4 "scene" [⟨"Alpha", PKind.ai⟩, ⟨"Beta", PKind.ai⟩,
        ⟨"Carol", PKind.human⟩] ["Adv"] (fun _ _ => "reply") (fun _ _ => "resp")
        (fun _ _ => "outcome") 2 (FailSpot.player 1) "over budget")).movesCompleted = 2
    ∧ (game (mkFailEnv 4 "scene" [⟨"Alpha", PKind.ai⟩, ⟨"Beta", PKind.ai⟩,
        ⟨"Carol", PKind.human⟩] ["Adv"] (fun _ _ => "reply") (fun _ _ => "resp")
        (fun _ _ => "outcome") 2 (FailSpot.player 1) "over budget")).advisorsActive
      = [("Adv", false)]
    ∧ (game (mkFailEnv 4 "scene" [⟨"Alpha", PKind.ai⟩, ⟨"Beta", PKind.ai⟩,
        ⟨"Carol", PKind.human⟩] ["Adv"] (fun _ _ => "reply") (fun _ _ => "resp")
        (fun _ _ => "outcome") 2 (FailSpot.player 1) "over budget")).sends
      = ["You are Carol.",
         "scene\n\n**How do you respond?**",
         "outcome\n\n**How do you respond?**",
         "**Game stopped: spending limit reached.**\n\nover budget",
         "outcome\n\n**Game Over**"]
    ∧ (game (mkFailEnv 4 "scene" [⟨"Alpha", PKind.ai⟩, ⟨"Beta", PKind.ai⟩,
        ⟨"Carol", PKind.human⟩] ["Adv"] (fun _ _ => "reply") (fun _ _ => "resp")
        (fun _ _ => "outcome") 2 (FailSpot.player 1) "over budget")).polled
      = [(0, 0), (0, 1), (0, 2), (1, 0), (1, 1), (1, 2), (2, 0), (2, 1)] := by
  have h := game_aborts_on_budget 4 "scene" [⟨"Alpha", PKind.ai⟩,
    ⟨"Beta", PKind.ai⟩, ⟨"Carol", PKind.human⟩] ["Adv"] (fun _ _ => "reply")
    (fun _ _ => "resp") (fun _ _ => "outcome") 2 (FailSpot.player 1) "over budget"
    (by omega)
    (by
      intro f hf
      injection hf with h2
      subst h2
      exact ⟨⟨"Beta", PKind.ai⟩, rfl, rfl⟩)
  refine ⟨?_, ?_, ?_, ?_, ?_⟩ <;> rw [h.1] <;> rfl

end Snowglobe
